import Mathlib

/-!
Verification of the Silver -> Gold reconciliation engine of the
World Happiness Report pipeline (`src/feature_engineering/engineer_silver_data.py`).

The Python code is shallowly embedded:

* column names are `String`s; a pandas DataFrame is a `Table` (a column-name
  list and a list of rows, each row a list of `Value` cells);
* `str.strip`, `str.lower`, the regex substitutions of `_snake_normalise`,
  dict lookups and pandas operations (rename, drop, merge, drop_duplicates,
  sort_values, concat) are translated into executable Lean functions on
  lists, character by character for the string operations;
* Python raising is modelled with `Except`; the file writes performed by
  `SilverToGold.run` are modelled as an explicit effect trace;
* the character-level model is ASCII-faithful: Python's unicode-aware
  `str.lower` and `\w` are restricted to their ASCII behaviour, which is
  the `Char.toLower` / `Char.isAlphanum` behaviour used below.
-/

/-! ## Column Normalizer (`_snake_normalise`, lines 28-50)

Python: `s = re.sub(r"[^\w]+", "_", name.strip().lower())` followed by
`s = re.sub(r"_+", "_", s).strip("_")`. -/

/-- A `\w` word character for the regex `[^\w]+`: letter, digit or underscore
(ASCII model of Python's word class). -/
def isWordChar (c : Char) : Bool :=
  c.isAlphanum || c == '_'

/-- Python `str.strip` / `str.strip(chars)`: drop characters satisfying `p`
from both ends of the list. -/
def stripEndsWhile (p : Char → Bool) (l : List Char) : List Char :=
  ((l.dropWhile p).reverse.dropWhile p).reverse

/-- Python `str.strip()` on a character list: drop whitespace from both ends. -/
def pyStrip (l : List Char) : List Char :=
  stripEndsWhile Char.isWhitespace l

/-- `re.sub(r"[^\w]+", "_", s)`: each maximal run of non-word characters
becomes a single underscore (a non-word character is dropped while the next
character is also non-word, and the last character of each run becomes the
run's single underscore, which is the same substitution). -/
def subNonWordRuns : List Char → List Char
  | [] => []
  | [c] => [if isWordChar c then c else '_']
  | c :: d :: cs =>
    if !isWordChar c && !isWordChar d then subNonWordRuns (d :: cs)
    else (if isWordChar c then c else '_') :: subNonWordRuns (d :: cs)

/-- `re.sub(r"_+", "_", s)`: each maximal run of underscores becomes a single
underscore (an underscore followed by another underscore is dropped). -/
def collapseUnderscoreRuns : List Char → List Char
  | [] => []
  | [c] => [c]
  | c :: d :: cs =>
    if c = '_' ∧ d = '_' then collapseUnderscoreRuns (d :: cs)
    else c :: collapseUnderscoreRuns (d :: cs)

/-- Python `str.strip("_")`: drop underscores from both ends. -/
def stripUnderscores (l : List Char) : List Char :=
  stripEndsWhile (fun c => c == '_') l

/-- Adjacent-pair invariant of `collapseUnderscoreRuns`: no two neighbouring
underscores. -/
def noUU (a b : Char) : Prop :=
  ¬(a = '_' ∧ b = '_')

/-- `_snake_normalise` (lines 28-50): trim, lowercase, replace non-word runs
by an underscore, collapse underscore runs, strip edge underscores.
`Char.toLower` is exactly Python's `str.lower` on ASCII. -/
def snake_normalise (name : String) : String :=
  String.mk (stripUnderscores (collapseUnderscoreRuns (subNonWordRuns
    ((pyStrip name.data).map Char.toLower))))

/-! ## Normalised-name map (`_build_normalised_map`, lines 52-81)

Python builds a dict `normalised_name -> first-occurring original name`,
iterating the columns in order and keeping the first occurrence of each key.
The association list below has the same lookup function and the same key set:
the head column always provides its key, and later bindings for that key are
dropped. -/

/-- `_build_normalised_map` (lines 52-81): normalised key -> first-seen
original column name, as an association list in first-occurrence order. -/
def build_normalised_map : List String → List (String × String)
  | [] => []
  | c :: rest =>
    (snake_normalise c, c) ::
      (build_normalised_map rest).filter (fun p => p.1 != snake_normalise c)

/-! ## Alias Resolver (`ALIASES` lines 88-92, `_apply_aliases` lines 94-127) -/

/-- Cell values of a table: strings, integers, or a missing value (NaN). -/
inductive Value where
  | str (s : String)
  | int (n : Int)
  | null
deriving DecidableEq, Repr

/-- A pandas DataFrame: ordered column labels and rows of cells (row `i`,
column `j` is `rows[i][j]`, positionally aligned with `cols`). -/
structure Table where
  cols : List String
  rows : List (List Value)
deriving DecidableEq, Repr

/-- The static alias map `ALIASES` (lines 88-92): normalised source names to
canonical 2021-style column names. -/
def ALIASES : List (String × String) :=
  [("life_ladder", "ladder_score"),
   ("log_gdp_per_capita", "logged_gdp_per_capita"),
   ("healthy_life_expectancy_at_birth", "healthy_life_expectancy")]

/-- `_apply_aliases` (lines 94-127): build `normalised -> original`, schedule a
rename `original -> canonical` for every normalised key with an alias whose
target differs from the original, then apply `df.rename` (each column label is
sent through the rename dict; labels not in the dict stay). Rows are
untouched. -/
def apply_aliases (df : Table) (aliases : List (String × String)) : Table :=
  let norm_to_orig := build_normalised_map df.cols
  let rename_dict := norm_to_orig.filterMap (fun p =>
    match aliases.lookup p.1 with
    | some target => if target != p.2 then some (p.2, target) else none
    | none => none)
  { df with cols := df.cols.map (fun c => (rename_dict.lookup c).getD c) }

/-! ## Column Aligner (`_intersect_and_align`, lines 130-166) -/

/-- The error raised at line 145 when two tables share no normalised columns.
The spec names this failure `AlignmentError`; the Python code raises
`ValueError` with this message. -/
structure AlignmentError where
  msg : String
deriving DecidableEq, Repr

/-- The `_pretty` helper (lines 148-152): keep an already-snake_case name,
otherwise show the snake_case form. -/
def prettyName (orig : String) : String :=
  let snake := snake_normalise orig
  if orig == snake then orig else snake

/-- Python's `sorted` on strings (code-point lexicographic), embedded as a
stable insertion sort with the library's `String` linear order. -/
def sortedStrings (l : List String) : List String :=
  List.insertionSort (fun a b => a ≤ b) l

/-- The cell of `row` in the first column labelled `c` (null when no column
matches); the cell accessed by a single-label lookup such as
`merged["latitude"]`. -/
def cellAt (cols : List String) (row : List Value) (c : String) : Value :=
  match cols.findIdx? (fun x => x == c) with
  | some i => row.getD i Value.null
  | none => Value.null

/-- Simplified column selection used for the Step 3 country-region lookup
`y2021_work[[y21_country, y21_region]]`: the new table has exactly the
columns `cs`, each row projected to the first column matching each name
(null for a missing name). -/
def selectCols (t : Table) (cs : List String) : Table :=
  { cols := cs, rows := t.rows.map (fun r => cs.map (cellAt t.cols r)) }

/-- pandas label selection `df.loc[:, cs]` on the column axis: for each
requested label, EVERY column bearing that label is selected, in column
order -- duplicate labels widen the selection. -/
def locSelectCols (cols : List String) (cs : List String) : List String :=
  cs.flatMap (fun c => cols.filter (fun x => x == c))

/-- One row of `df.loc[:, cs]`: the cells of every column matching each
requested label, in the same order as `locSelectCols`. -/
def locSelectRow (cols : List String) (row : List Value) (cs : List String) :
    List Value :=
  cs.flatMap (fun c => ((cols.zip row).filter (fun p => p.1 == c)).map Prod.snd)

/-- `df.loc[:, cs].copy()` (lines 158-159): label-based selection with
pandas' duplicate-label semantics. -/
def locSelect (t : Table) (cs : List String) : Table :=
  { cols := locSelectCols t.cols cs,
    rows := t.rows.map (fun r => locSelectRow t.cols r cs) }

/-- The failures `_intersect_and_align` can raise: the explicit
`ValueError` of line 145 (the spec's `AlignmentError`), and the
length-mismatch `ValueError` pandas raises at the `.columns` assignment of
lines 162-163 when duplicate labels made the selection wider than the new
name list ("Expected axis has `axis_len` elements, new values have
`new_len` elements"). -/
inductive AlignFailure where
  | alignment (e : AlignmentError)
  | lengthMismatch (axis_len new_len : Nat)
deriving DecidableEq, Repr

/-- The `.columns = out_cols` assignment (lines 162-163): succeeds only when
the new label list has exactly as many entries as the table has columns,
otherwise pandas raises the length-mismatch `ValueError`. -/
def set_columns (t : Table) (new_cols : List String) : Except AlignFailure Table :=
  if t.cols.length = new_cols.length then Except.ok { t with cols := new_cols }
  else Except.error (AlignFailure.lengthMismatch t.cols.length new_cols.length)

/-- `_intersect_and_align` (lines 130-166): shared normalised keys, sorted;
the alignment error when none; otherwise select the matching columns from
both tables with `.loc` (all duplicate-labelled columns) and assign the
common pretty names to both, in source order (`a` first), which raises the
length-mismatch failure when a selected label is duplicated. -/
def intersect_and_align (a b : Table) :
    Except AlignFailure (Table × Table) :=
  let a_map := build_normalised_map a.cols
  let b_map := build_normalised_map b.cols
  let shared_keys :=
    sortedStrings ((a_map.map Prod.fst).filter (fun k => (b_map.lookup k).isSome))
  if shared_keys.isEmpty then
    Except.error (AlignFailure.alignment
      { msg := "No shared columns found between the two DataFrames after normalisation" })
  else
    let out_cols := shared_keys.map (fun k => prettyName ((a_map.lookup k).getD k))
    let a_sel := locSelect a (shared_keys.map (fun k => (a_map.lookup k).getD k))
    let b_sel := locSelect b (shared_keys.map (fun k => (b_map.lookup k).getD k))
    match set_columns a_sel out_cols with
    | Except.error e => Except.error e
    | Except.ok a_aligned =>
      match set_columns b_sel out_cols with
      | Except.error e => Except.error e
      | Except.ok b_aligned => Except.ok (a_aligned, b_aligned)

/-! ## Key Column Locator (`_find_col`, lines 193-205) -/

/-- The failure of `_find_col` (lines 202-205). The spec names it
`MissingColumnError`; the Python code raises `KeyError` carrying the target
key and the hint in its message. -/
structure MissingColumnError where
  targetKey : String
  hint : String
deriving DecidableEq, Repr

/-- `_find_col` (lines 193-205): scan the normalised map for the target key
and return the original column name; otherwise raise, carrying the target key
and a hint. -/
def find_col (cols : List String) (target_norm : String) :
    Except MissingColumnError String :=
  match (build_normalised_map cols).lookup target_norm with
  | some orig => Except.ok orig
  | none =>
    Except.error
      { targetKey := target_norm,
        hint := "Expected a column matching \x27" ++ target_norm ++
          "\x27 (e.g., \x27" ++ target_norm ++ "\x27 or a close variant)." }

/-! ## Region Injector (Step 3 of `SilverToGold.run`, lines 244-259) -/

/-- `df.rename(columns={old : nw})`: relabel every column equal to `old`. -/
def renameCol (t : Table) (old nw : String) : Table :=
  { t with cols := t.cols.map (fun c => if c == old then nw else c) }

/-- `df.drop(columns=c)`: remove every column labelled `c`, cells included. -/
def dropCol (t : Table) (c : String) : Table :=
  { cols := t.cols.filter (fun x => x != c),
    rows := t.rows.map (fun r =>
      ((t.cols.zip r).filter (fun p => p.1 != c)).map Prod.snd) }

/-- Worker for `dedupRowsKeepFirst`: `seen` holds the rows already emitted. -/
def dedupRowsKeepFirstAux (seen : List (List Value)) :
    List (List Value) → List (List Value)
  | [] => []
  | r :: rs =>
    if seen.contains r then dedupRowsKeepFirstAux seen rs
    else r :: dedupRowsKeepFirstAux (r :: seen) rs

/-- `df.drop_duplicates()` (whole-row, keep the first occurrence, order
preserved). -/
def dedupRowsKeepFirst (l : List (List Value)) : List (List Value) :=
  dedupRowsKeepFirstAux [] l

/-- `left.merge(right, on=key, how="left", suffixes=(sl, sr))`: pandas left
join on a single key column. Output columns: the left columns (overlapping
non-key names get `sl`), then the right columns without the key (overlapping
names get `sr`). Each left row pairs with every matching right row, or with a
null fill when no right row matches. -/
def mergeLeft (key : String) (l r : Table) (sl sr : String) : Table :=
  { cols :=
      l.cols.map (fun c => if c != key && r.cols.contains c then c ++ sl else c)
      ++ (r.cols.filter (fun c => c != key)).map
          (fun c => if l.cols.contains c then c ++ sr else c),
    rows := l.rows.flatMap (fun lrow =>
      let k := cellAt l.cols lrow key
      let ms := r.rows.filter (fun rrow => cellAt r.cols rrow key == k)
      if ms.isEmpty then
        [lrow ++ (r.cols.filter (fun c => c != key)).map (fun _ => Value.null)]
      else
        ms.map (fun rrow =>
          lrow ++ ((r.cols.zip rrow).filter (fun p => p.1 != key)).map Prod.snd)) }

/-- Step 3 of `SilverToGold.run` (lines 244-259): build the deduplicated
country -> region lookup from the 2021 table, rename its columns to
`multi_country` / `regional_indicator`, drop a pre-existing
`regional_indicator` column from the panel only when the panel's country
column is not literally named `country_name` (the code's condition at
line 251), then left-join. pandas' default merge suffixes are `_x` / `_y`. -/
def regionInject (multi_work y2021_work : Table)
    (multi_country y21_country y21_region : String) : Table :=
  let sel := selectCols y2021_work [y21_country, y21_region]
  let ded : Table := { cols := sel.cols, rows := dedupRowsKeepFirst sel.rows }
  let country_region : Table :=
    { ded with cols := ded.cols.map (fun c =>
        if c == y21_country then multi_country
        else if c == y21_region then "regional_indicator" else c) }
  let multi_work2 :=
    if multi_work.cols.contains "regional_indicator"
        && multi_country != "country_name" then
      dropCol multi_work "regional_indicator"
    else multi_work
  mergeLeft multi_country multi_work2 country_region "_x" "_y"

/-! ## Precedence Appender (Step 6 of `SilverToGold.run`, lines 282-302)

The appender runs on the two aligned tables, whose `country_name` column
holds strings and whose `year` column holds integers (the cleaned silver
data; the keys are also cast to `str` in the code). A row of an aligned
table is embedded as its key fields plus the remaining shared-column cells
(`rest`, an arbitrary type so the remaining columns stay fully general). -/

/-- One row of an aligned happiness table: the `(country_name, year)` key
fields and all remaining shared-column cells. -/
structure Row (α : Type) where
  country_name : String
  year : Int
  rest : α
deriving DecidableEq, Repr

/-- The `(country_name, year)` key of a row (`zip(...astype(str), ...year)`). -/
def rowKey {α : Type} (r : Row α) : String × Int :=
  (r.country_name, r.year)

/-- The `y2021_keys` set (lines 286-290): the keys contributed by the 2021
table. -/
def y2021_keys {α : Type} (y2021_aligned : List (Row α)) : List (String × Int) :=
  y2021_aligned.map rowKey

/-- Lines 293-294: tag a row with the helper flag `_is_2021_row`, 1 when its
key is in the 2021 key set. -/
def flag_2021 {α : Type} (keys : List (String × Int)) (r : Row α) : Row α × Nat :=
  (r, if rowKey r ∈ keys then 1 else 0)

/-- Strict lexicographic comparison of character lists (Python string `<`). -/
def charListLt : List Char → List Char → Bool
  | _, [] => false
  | [], _ :: _ => true
  | a :: as, b :: bs => a < b || (a == b && charListLt as bs)

/-- The ascending lexicographic comparison of
`sort_values(["country_name", "year", "_is_2021_row"])`: by country name,
then year, then the helper flag. -/
def rowSortLe {α : Type} (a b : Row α × Nat) : Bool :=
  if a.1.country_name == b.1.country_name then
    (if a.1.year == b.1.year then decide (a.2 ≤ b.2) else decide (a.1.year < b.1.year))
  else charListLt a.1.country_name.data b.1.country_name.data

/-- The sort relation of Step 6 as a proposition. pandas' multi-column
`sort_values` is stable (it lexsorts), which the stable insertion sort below
models. -/
def append_sort_le {α : Type} (a b : Row α × Nat) : Prop :=
  rowSortLe a b = true

instance {α : Type} : DecidableRel (@append_sort_le α) := fun a b =>
  inferInstanceAs (Decidable (_ = _))

/-- `drop_duplicates(keys, keep="last")`: keep a row only when no later row
has the same key; the kept rows stay in their current order. -/
def dropDupKeepLast {β κ : Type} [DecidableEq κ] (f : β → κ) : List β → List β
  | [] => []
  | x :: xs =>
    if xs.any (fun y => decide (f y = f x)) then dropDupKeepLast f xs
    else x :: dropDupKeepLast f xs

/-- Step 6 of `SilverToGold.run` (lines 282-302): concatenate the aligned
tables, flag rows whose key comes from the 2021 table, stable-sort by
`(country_name, year, flag)`, drop duplicate keys keeping the last, and drop
the helper flag. -/
def append_with_precedence {α : Type}
    (multi_aligned y2021_aligned : List (Row α)) : List (Row α) :=
  let union := multi_aligned ++ y2021_aligned
  let keys := y2021_keys y2021_aligned
  let union_flagged := union.map (flag_2021 keys)
  let union_sorted := List.insertionSort append_sort_le union_flagged
  let appended := dropDupKeepLast (fun p => rowKey p.1) union_sorted
  appended.map Prod.fst

/-! ## Geo Harmonizer & Merger (Steps 7-8 of `SilverToGold.run`,
lines 312-354) -/

/-- The static `geo_to_happy` rename dictionary (lines 313-322). -/
def geo_to_happy : List (String × String) :=
  [("Congo [Republic]", "Congo (Brazzaville)"),
   ("Congo [DRC]", "Congo (Brazzaville)"),
   ("Hong Kong", "Hong Kong S.A.R. of China"),
   ("C\xF4te d\x27Ivoire", "Ivory Coast"),
   ("Myanmar [Burma]", "Myanmar"),
   ("Cyprus", "North Cyprus"),
   ("Macedonia [FYROM]", "North Macedonia"),
   ("Taiwan", "Taiwan Province of China")]

/-- `Series.replace(dict)` on one cell: replace a string cell equal to a key
of the dict by its target; every other cell is unchanged. -/
def replaceValue (m : List (String × String)) (v : Value) : Value :=
  match v with
  | Value.str s =>
    match m.lookup s with
    | some target => Value.str target
    | none => v
  | _ => v

/-- `df[c] = df[c].replace(m)`: apply `replaceValue` to every cell of the
(first) column labelled `c`. -/
def replaceInCol (t : Table) (c : String) (m : List (String × String)) : Table :=
  match t.cols.findIdx? (fun x => x == c) with
  | some i =>
    { t with rows := t.rows.map (fun r =>
        r.mapIdx (fun j v => if j = i then replaceValue m v else v)) }
  | none => t

/-- Step 7 (lines 324-331), the `geo_harmonised` table: rename the geo
country column to `country_name` and apply the `geo_to_happy` substitution to
that column. In the code this value is computed and then never used. -/
def geoHarmonised (geo_df : Table) (geo_country : String) : Table :=
  let g := renameCol geo_df geo_country "country_name"
  if g.cols.contains "country_name" then replaceInCol g "country_name" geo_to_happy
  else g

/-- Step 8 (lines 345-354): the merge actually performed by the code. It
rebuilds `geo_renamed` from the raw `geo_df` (line 346) and left-joins it —
NOT the `geo_harmonised` table built in Step 7 — with suffixes
`("", "_geo")`. -/
def geoMergeStep (appended geo_df : Table) (geo_country : String) : Table :=
  let geo_renamed := renameCol geo_df geo_country "country_name"
  mergeLeft "country_name" appended geo_renamed "" "_geo"

/-! ## Step 9 (lines 365-371): the save-to-gold effects -/

/-- A filesystem side effect the engine performs. -/
inductive FsEffect where
  | mkdirParents (path : String)
  | writeCsv (path : String)
deriving DecidableEq, Repr

/-- Step 9 of `SilverToGold.run` (lines 365-371): `Path(gold_folder).mkdir(
parents=True, exist_ok=True)` followed by `merged.to_csv(out_path)`. The code
runs this unconditionally on every call — the `save_output` parameter
(line 186) is accepted but never read — so the effect trace does not depend
on `save_output`. The merged table is returned unchanged alongside. -/
def saveToGold (gold_folder engineered_name : String) (merged : Table)
    (save_output : Bool) : Table × List FsEffect :=
  let out_path := gold_folder ++ "/" ++ engineered_name
  (merged, [FsEffect.mkdirParents gold_folder, FsEffect.writeCsv out_path])

/-! ## Lemmas: the Column Normalizer -/

theorem mem_of_head?_eq_some {α : Type} {l : List α} {a : α}
    (h : l.head? = some a) : a ∈ l := by
  cases l with
  | nil => simp at h
  | cons x xs => simp_all [List.head?]

theorem head?_dropWhile_not (p : Char → Bool) :
    ∀ (l : List Char) (a : Char), (l.dropWhile p).head? = some a → p a = false := by
  intro l
  induction l with
  | nil => simp
  | cons x xs ih =>
    intro a h
    rw [List.dropWhile_cons] at h
    cases hx : p x with
    | true => exact ih a (by simpa [hx] using h)
    | false =>
      rw [if_neg (by simp [hx])] at h
      simp only [List.head?, Option.some.injEq] at h
      exact h ▸ hx

theorem dropWhile_eq_self_of_head (p : Char → Bool) (l : List Char)
    (h : ∀ a, l.head? = some a → p a = false) : l.dropWhile p = l := by
  cases l with
  | nil => rfl
  | cons x xs => rw [List.dropWhile_cons, if_neg (by simp [h x rfl])]

theorem mem_stripEndsWhile (p : Char → Bool) (l : List Char) (c : Char)
    (h : c ∈ stripEndsWhile p l) : c ∈ l := by
  unfold stripEndsWhile at h
  rw [List.mem_reverse] at h
  have h2 := (List.dropWhile_sublist p).subset h
  rw [List.mem_reverse] at h2
  exact (List.dropWhile_sublist p).subset h2

theorem stripEndsWhile_infix_self (p : Char → Bool) (l : List Char) :
    stripEndsWhile p l <:+: l := by
  unfold stripEndsWhile
  have h1 : (l.dropWhile p) <:+ l := List.dropWhile_suffix p
  have h2 : ((l.dropWhile p).reverse.dropWhile p) <:+ (l.dropWhile p).reverse :=
    List.dropWhile_suffix p
  have h3 := h2.reverse
  rw [List.reverse_reverse] at h3
  exact h3.isInfix.trans h1.isInfix

theorem head?_stripEndsWhile (p : Char → Bool) (l : List Char) (a : Char)
    (h : (stripEndsWhile p l).head? = some a) : p a = false := by
  unfold stripEndsWhile at h
  rw [List.head?_reverse] at h
  rcases List.dropWhile_suffix (l := (l.dropWhile p).reverse) p with ⟨pre, hpre⟩
  have hw : ((l.dropWhile p).reverse).getLast? = some a := by
    rw [← hpre, List.getLast?_append, h]
    rfl
  rw [List.getLast?_reverse] at hw
  exact head?_dropWhile_not p l a hw

theorem getLast?_stripEndsWhile (p : Char → Bool) (l : List Char) (a : Char)
    (h : (stripEndsWhile p l).getLast? = some a) : p a = false := by
  unfold stripEndsWhile at h
  rw [List.getLast?_reverse] at h
  exact head?_dropWhile_not p _ a h

theorem stripEndsWhile_eq_self (p : Char → Bool) (l : List Char)
    (hh : ∀ a, l.head? = some a → p a = false)
    (hl : ∀ a, l.getLast? = some a → p a = false) :
    stripEndsWhile p l = l := by
  unfold stripEndsWhile
  rw [dropWhile_eq_self_of_head p l hh]
  rw [dropWhile_eq_self_of_head p l.reverse (by
    intro a h
    rw [List.head?_reverse] at h
    exact hl a h)]
  exact List.reverse_reverse l

theorem mem_subNonWordRuns :
    ∀ (l : List Char) (c : Char), c ∈ subNonWordRuns l →
      c = '_' ∨ (c ∈ l ∧ isWordChar c = true)
  | [], c => by simp [subNonWordRuns]
  | [d], c => by
    intro h
    simp only [subNonWordRuns, List.mem_singleton] at h
    by_cases hw : isWordChar d
    · right
      rw [if_pos hw] at h
      simp [h, hw]
    · left
      rw [if_neg hw] at h
      exact h
  | d :: e :: cs, c => by
    intro h
    rw [subNonWordRuns] at h
    by_cases hcond : (!isWordChar d && !isWordChar e) = true
    · rw [if_pos hcond] at h
      rcases mem_subNonWordRuns (e :: cs) c h with h1 | ⟨h2, h3⟩
      · exact Or.inl h1
      · exact Or.inr ⟨List.mem_cons_of_mem d h2, h3⟩
    · rw [if_neg hcond] at h
      rcases List.mem_cons.mp h with h1 | h1
      · by_cases hw : isWordChar d
        · right
          rw [if_pos hw] at h1
          simp [h1, hw]
        · left
          rw [if_neg hw] at h1
          exact h1
      · rcases mem_subNonWordRuns (e :: cs) c h1 with h2 | ⟨h3, h4⟩
        · exact Or.inl h2
        · exact Or.inr ⟨List.mem_cons_of_mem d h3, h4⟩

theorem subNonWordRuns_eq_self :
    ∀ (l : List Char), (∀ c ∈ l, isWordChar c = true) → subNonWordRuns l = l
  | [], _ => rfl
  | [d], h => by
    have hd := h d (List.mem_singleton_self d)
    simp [subNonWordRuns, hd]
  | d :: e :: cs, h => by
    have hd := h d (List.mem_cons_self d _)
    have ih := subNonWordRuns_eq_self (e :: cs)
      (fun c hc => h c (List.mem_cons_of_mem d hc))
    rw [subNonWordRuns, if_neg (by simp [hd]), if_pos hd, ih]

theorem mem_collapseUnderscoreRuns :
    ∀ (l : List Char) (c : Char), c ∈ collapseUnderscoreRuns l → c ∈ l
  | [], c => by simp [collapseUnderscoreRuns]
  | [d], c => by simp [collapseUnderscoreRuns]
  | d :: e :: cs, c => by
    intro h
    rw [collapseUnderscoreRuns] at h
    by_cases hcond : d = '_' ∧ e = '_'
    · rw [if_pos hcond] at h
      exact List.mem_cons_of_mem d (mem_collapseUnderscoreRuns (e :: cs) c h)
    · rw [if_neg hcond] at h
      rcases List.mem_cons.mp h with h1 | h1
      · exact h1 ▸ List.mem_cons_self d _
      · exact List.mem_cons_of_mem d (mem_collapseUnderscoreRuns (e :: cs) c h1)

theorem collapseUnderscoreRuns_cons_of_ne (d : Char) (cs : List Char)
    (hd : d ≠ '_') :
    ∃ t, collapseUnderscoreRuns (d :: cs) = d :: t := by
  cases cs with
  | nil => exact ⟨[], rfl⟩
  | cons e cs' =>
    rw [collapseUnderscoreRuns, if_neg (by simp [hd])]
    exact ⟨_, rfl⟩

theorem chain'_collapseUnderscoreRuns :
    ∀ (l : List Char), List.Chain' noUU (collapseUnderscoreRuns l)
  | [] => List.chain'_nil
  | [d] => by simp [collapseUnderscoreRuns]
  | d :: e :: cs => by
    rw [collapseUnderscoreRuns]
    by_cases hcond : d = '_' ∧ e = '_'
    · rw [if_pos hcond]
      exact chain'_collapseUnderscoreRuns (e :: cs)
    · rw [if_neg hcond]
      have ih := chain'_collapseUnderscoreRuns (e :: cs)
      by_cases hd : d = '_'
      · have he : e ≠ '_' := fun hE => hcond ⟨hd, hE⟩
        rcases collapseUnderscoreRuns_cons_of_ne e cs he with ⟨t, ht⟩
        rw [ht]
        rw [ht] at ih
        exact List.Chain'.cons (fun hP => he hP.2) ih
      · apply List.chain'_cons'.mpr
        refine ⟨fun b _ => fun hP => hd hP.1, ih⟩

theorem collapseUnderscoreRuns_eq_self :
    ∀ (l : List Char), List.Chain' noUU l → collapseUnderscoreRuns l = l
  | [], _ => rfl
  | [_], _ => rfl
  | d :: e :: cs, h => by
    have hde : noUU d e := (List.chain'_cons.mp h).1
    have htail := (List.chain'_cons.mp h).2
    rw [collapseUnderscoreRuns, if_neg hde,
      collapseUnderscoreRuns_eq_self (e :: cs) htail]

theorem char_toNat_ofNat_of_lt (n : Nat) (h : n < 55296) :
    (Char.ofNat n).toNat = n := by
  unfold Char.ofNat
  rw [dif_pos (Or.inl h)]
  rfl

theorem toLower_toLower (c : Char) :
    Char.toLower (Char.toLower c) = Char.toLower c := by
  simp only [Char.toLower]
  by_cases h : Char.toNat c ≥ 65 ∧ Char.toNat c ≤ 90
  · rw [if_pos h, char_toNat_ofNat_of_lt (Char.toNat c + 32) (by omega),
      if_neg (by omega)]
  · rw [if_neg h, if_neg h]

theorem wordChar_not_whitespace (c : Char) (h : isWordChar c = true) :
    Char.isWhitespace c = false := by
  cases hw : Char.isWhitespace c
  · rfl
  · exfalso
    simp only [Char.isWhitespace, Bool.or_eq_true, decide_eq_true_eq] at hw
    rcases hw with ((h1 | h1) | h1) | h1 <;> subst h1 <;> revert h <;> decide

/-- C9. The Column Normalizer is a total function on strings (it is a Lean
function), and it is idempotent: normalising an already-normalised name
changes nothing. -/
theorem snake_normalise_idem (name : String) :
    snake_normalise (snake_normalise name) = snake_normalise name := by
  have hmk : snake_normalise name =
      String.mk (stripUnderscores (collapseUnderscoreRuns (subNonWordRuns
        ((pyStrip name.data).map Char.toLower)))) := rfl
  set L := stripUnderscores (collapseUnderscoreRuns (subNonWordRuns
    ((pyStrip name.data).map Char.toLower))) with hLdef
  have hmem : ∀ c ∈ L, isWordChar c = true ∧ Char.toLower c = c := by
    intro c hc
    have h1 : c ∈ collapseUnderscoreRuns (subNonWordRuns
        ((pyStrip name.data).map Char.toLower)) :=
      mem_stripEndsWhile _ _ c hc
    have h2 := mem_collapseUnderscoreRuns _ c h1
    rcases mem_subNonWordRuns _ c h2 with rfl | ⟨h3, h4⟩
    · exact ⟨by decide, by decide⟩
    · refine ⟨h4, ?_⟩
      rcases List.mem_map.mp h3 with ⟨a, _, rfl⟩
      exact toLower_toLower a
  have hchain : List.Chain' noUU L :=
    List.Chain'.infix (chain'_collapseUnderscoreRuns _) (stripEndsWhile_infix_self _ _)
  have hhead : ∀ a, L.head? = some a → (a == '_') = false := fun a ha =>
    head?_stripEndsWhile _ _ a ha
  have hlast : ∀ a, L.getLast? = some a → (a == '_') = false := fun a ha =>
    getLast?_stripEndsWhile _ _ a ha
  have e1 : pyStrip L = L := by
    apply stripEndsWhile_eq_self
    · intro a ha
      exact wordChar_not_whitespace a (hmem a (mem_of_head?_eq_some ha)).1
    · intro a ha
      exact wordChar_not_whitespace a (hmem a (List.mem_of_getLast?_eq_some ha)).1
  have e2 : L.map Char.toLower = L := by
    rw [List.map_congr_left (fun a ha => (hmem a ha).2), List.map_id']
  have e3 : subNonWordRuns L = L :=
    subNonWordRuns_eq_self L (fun c hc => (hmem c hc).1)
  have e4 : collapseUnderscoreRuns L = L := collapseUnderscoreRuns_eq_self L hchain
  have e5 : stripUnderscores L = L := stripEndsWhile_eq_self _ L hhead hlast
  calc snake_normalise (snake_normalise name)
      = snake_normalise (String.mk L) := by rw [hmk]
    _ = String.mk (stripUnderscores (collapseUnderscoreRuns (subNonWordRuns
          ((pyStrip L).map Char.toLower)))) := rfl
    _ = String.mk L := by rw [e1, e2, e3, e4, e5]
    _ = snake_normalise name := hmk.symm

/-! ## Lemmas: the normalised-name map and the Key Column Locator -/

theorem lookup_cons_ite {β : Type} (k k' : String) (b : β) (es : List (String × β)) :
    ((k', b) :: es).lookup k = if k = k' then some b else es.lookup k := by
  rw [List.lookup_cons]
  by_cases h : k = k'
  · simp [h]
  · rw [if_neg h]
    have hb : (k == k') = false := by simp [h]
    rw [hb]

theorem lookup_filter_ne {β : Type} (k s : String) (l : List (String × β))
    (h : k ≠ s) :
    (l.filter (fun p => p.1 != s)).lookup k = l.lookup k := by
  induction l with
  | nil => rfl
  | cons p t ih =>
    obtain ⟨p1, p2⟩ := p
    by_cases hp : p1 = s
    · rw [List.filter_cons, if_neg (by simp [hp]), ih, lookup_cons_ite,
        if_neg (fun he => h (he.trans hp))]
    · rw [List.filter_cons, if_pos (by simp [hp]), lookup_cons_ite, lookup_cons_ite]
      by_cases hk : k = p1
      · rw [if_pos hk, if_pos hk]
      · rw [if_neg hk, if_neg hk, ih]

theorem build_normalised_map_lookup_some :
    ∀ (cols : List String) (k c : String),
      (build_normalised_map cols).lookup k = some c →
      c ∈ cols ∧ snake_normalise c = k
  | [], k, c => by simp [build_normalised_map]
  | c0 :: rest, k, c => by
    intro h
    rw [build_normalised_map, lookup_cons_ite] at h
    by_cases hk : k = snake_normalise c0
    · rw [if_pos hk] at h
      obtain rfl : c0 = c := by simpa using h
      exact ⟨List.mem_cons_self c0 rest, hk.symm⟩
    · rw [if_neg hk, lookup_filter_ne k (snake_normalise c0) _ hk] at h
      obtain ⟨h1, h2⟩ := build_normalised_map_lookup_some rest k c h
      exact ⟨List.mem_cons_of_mem c0 h1, h2⟩

theorem build_normalised_map_lookup_isSome :
    ∀ (cols : List String) (c : String), c ∈ cols →
      ((build_normalised_map cols).lookup (snake_normalise c)).isSome = true
  | [], c => by simp
  | c0 :: rest, c => by
    intro hc
    rw [build_normalised_map, lookup_cons_ite]
    by_cases hk : snake_normalise c = snake_normalise c0
    · rw [if_pos hk]
      rfl
    · rw [if_neg hk, lookup_filter_ne _ _ _ hk]
      rcases List.mem_cons.mp hc with rfl | hc'
      · exact absurd rfl hk
      · exact build_normalised_map_lookup_isSome rest c hc'

/-- C6. The Key Column Locator: when some column of the table normalises to
the target key, `find_col` returns such a column; otherwise it fails with a
`MissingColumnError` that carries the target key and the hint message, and no
column of the table normalises to the target. -/
theorem find_col_spec (cols : List String) (target : String) :
    match find_col cols target with
    | Except.ok c => c ∈ cols ∧ snake_normalise c = target
    | Except.error e =>
        e.targetKey = target ∧
        e.hint = "Expected a column matching \x27" ++ target ++
          "\x27 (e.g., \x27" ++ target ++ "\x27 or a close variant)." ∧
        ∀ c ∈ cols, snake_normalise c ≠ target := by
  unfold find_col
  cases h : (build_normalised_map cols).lookup target with
  | some orig =>
    exact build_normalised_map_lookup_some cols target orig h
  | none =>
    refine ⟨rfl, rfl, ?_⟩
    intro c hc heq
    have hs := build_normalised_map_lookup_isSome cols c hc
    rw [heq, h] at hs
    simp at hs

/-! ## Lemmas: the Column Aligner -/

theorem mem_key_lookup_isSome {β : Type} (l : List (String × β)) (k : String)
    (h : k ∈ l.map Prod.fst) : (l.lookup k).isSome = true := by
  rcases List.mem_map.mp h with ⟨p, hp, rfl⟩
  simp only [List.lookup_isSome_iff]
  exact ⟨p, hp, by simp⟩

theorem filter_beq_eq_singleton :
    ∀ (cols : List String), cols.Nodup → ∀ c ∈ cols,
      cols.filter (fun x => x == c) = [c]
  | [] => by simp
  | x :: xs => fun hnd c hc => by
    rw [List.nodup_cons] at hnd
    obtain ⟨hx, hndxs⟩ := hnd
    rcases List.mem_cons.mp hc with rfl | hcxs
    · rw [List.filter_cons, if_pos (by simp)]
      have hnil : xs.filter (fun y => y == c) = [] := by
        apply List.filter_eq_nil_iff.mpr
        intro y hy hyc
        have hyec : y = c := by simpa using hyc
        exact hx (hyec ▸ hy)
      rw [hnil]
    · have hxc : x ≠ c := fun he => hx (he ▸ hcxs)
      rw [List.filter_cons, if_neg (by simp [hxc]),
        filter_beq_eq_singleton xs hndxs c hcxs]

theorem locSelectCols_of_nodup (cols : List String) (hnd : cols.Nodup) :
    ∀ (sel : List String), (∀ c ∈ sel, c ∈ cols) → locSelectCols cols sel = sel
  | [] => fun _ => rfl
  | c :: cs => fun hmem => by
    have ih := locSelectCols_of_nodup cols hnd cs
      (fun d hd => hmem d (List.mem_cons_of_mem c hd))
    show cols.filter (fun x => x == c) ++ locSelectCols cols cs = c :: cs
    rw [filter_beq_eq_singleton cols hnd c (hmem c (List.mem_cons_self c cs)), ih]
    rfl

/-- C5 (amended). On tables without duplicate column labels, the Column
Aligner either fails with the alignment error -- exactly when the two tables
share no normalised column key -- or returns two tables with identical,
non-empty column lists, sorted by (equal to) the shared normalised keys.
(With duplicate labels in a selected position, the `.columns` assignment of
line 162 raises pandas' length-mismatch error instead of an alignment error;
see the counterexample.) -/
theorem intersect_and_align_spec (a b : Table)
    (ha : a.cols.Nodup) (hb : b.cols.Nodup) :
    match intersect_and_align a b with
    | Except.error e =>
        e = AlignFailure.alignment
          { msg := "No shared columns found between the two DataFrames after normalisation" } ∧
        ∀ ca ∈ a.cols, ∀ cb ∈ b.cols, snake_normalise ca ≠ snake_normalise cb
    | Except.ok (a2, b2) =>
        a2.cols = b2.cols ∧ a2.cols ≠ [] ∧ List.Sorted (fun x y => x ≤ y) a2.cols ∧
        ∀ c ∈ a2.cols, snake_normalise c = c ∧
          (∃ ca ∈ a.cols, snake_normalise ca = c) ∧
          (∃ cb ∈ b.cols, snake_normalise cb = c) := by
  simp only [intersect_and_align]
  set a_map := build_normalised_map a.cols with ha_map
  set b_map := build_normalised_map b.cols with hb_map
  set shared := (a_map.map Prod.fst).filter (fun k => (b_map.lookup k).isSome)
    with hshared
  set sk := sortedStrings shared with hsk
  have hperm : List.Perm sk shared := List.perm_insertionSort _ shared
  by_cases hE : sk.isEmpty
  · rw [if_pos hE]
    refine ⟨rfl, ?_⟩
    intro ca hca cb hcb heq
    have hka : snake_normalise ca ∈ a_map.map Prod.fst := by
      have := build_normalised_map_lookup_isSome a.cols ca hca
      rw [List.lookup_isSome_iff] at this
      rcases this with ⟨p, hp, hpeq⟩
      rw [ha_map]
      have hp1 : p.1 = snake_normalise ca := by
        have := hpeq
        simp only [beq_iff_eq] at this
        exact this.symm
      exact List.mem_map.mpr ⟨p, hp, hp1⟩
    have hkb : (b_map.lookup (snake_normalise ca)).isSome = true := by
      rw [heq, hb_map]
      exact build_normalised_map_lookup_isSome b.cols cb hcb
    have hmem : snake_normalise ca ∈ shared := by
      rw [hshared]
      exact List.mem_filter.mpr ⟨hka, by simp [hkb]⟩
    have : sk = [] := List.isEmpty_iff.mp hE
    rw [this] at hperm
    rw [hperm.symm.eq_nil] at hmem
    simp at hmem
  · rw [if_neg hE]
    have hskmem : ∀ k ∈ sk, ∃ c, a_map.lookup k = some c ∧ c ∈ a.cols ∧
        snake_normalise c = k ∧ (b_map.lookup k).isSome = true := by
      intro k hk
      have hk2 : k ∈ shared := hperm.subset hk
      rw [hshared] at hk2
      have hk3 := List.mem_filter.mp hk2
      have hsome : (a_map.lookup k).isSome = true := mem_key_lookup_isSome _ k hk3.1
      rcases Option.isSome_iff_exists.mp hsome with ⟨c, hc⟩
      obtain ⟨hmem, hsnake⟩ := build_normalised_map_lookup_some a.cols k c hc
      exact ⟨c, hc, hmem, hsnake, by simpa using hk3.2⟩
    have hskmemb : ∀ k ∈ sk, ∃ c, b_map.lookup k = some c ∧ c ∈ b.cols ∧
        snake_normalise c = k := by
      intro k hk
      rcases hskmem k hk with ⟨_, _, _, _, hbs⟩
      rcases Option.isSome_iff_exists.mp hbs with ⟨cb, hcb⟩
      obtain ⟨hmemb, hsnb⟩ := build_normalised_map_lookup_some b.cols k cb hcb
      exact ⟨cb, hcb, hmemb, hsnb⟩
    have hout : sk.map (fun k => prettyName ((a_map.lookup k).getD k)) = sk := by
      rw [List.map_congr_left ?h, List.map_id']
      intro k hk
      rcases hskmem k hk with ⟨c, hc, _, hsnake, _⟩
      rw [hc]
      show prettyName c = k
      unfold prettyName
      by_cases hcc : c == snake_normalise c
      · rw [if_pos hcc]
        have : c = snake_normalise c := by simpa using hcc
        rw [this, hsnake]
      · rw [if_neg hcc]
        exact hsnake
    have hselA : locSelectCols a.cols (sk.map (fun k => (a_map.lookup k).getD k)) =
        sk.map (fun k => (a_map.lookup k).getD k) := by
      apply locSelectCols_of_nodup a.cols ha
      intro c hc
      rcases List.mem_map.mp hc with ⟨k, hk, rfl⟩
      rcases hskmem k hk with ⟨c0, hc0, hmem0, _, _⟩
      rw [hc0]
      exact hmem0
    have hselB : locSelectCols b.cols (sk.map (fun k => (b_map.lookup k).getD k)) =
        sk.map (fun k => (b_map.lookup k).getD k) := by
      apply locSelectCols_of_nodup b.cols hb
      intro c hc
      rcases List.mem_map.mp hc with ⟨k, hk, rfl⟩
      rcases hskmemb k hk with ⟨c0, hc0, hmem0, _⟩
      rw [hc0]
      exact hmem0
    have hlenA : (locSelect a (sk.map (fun k => (a_map.lookup k).getD k))).cols.length =
        (sk.map (fun k => prettyName ((a_map.lookup k).getD k))).length := by
      show (locSelectCols a.cols _).length = _
      rw [hselA, List.length_map, List.length_map]
    have hlenB : (locSelect b (sk.map (fun k => (b_map.lookup k).getD k))).cols.length =
        (sk.map (fun k => prettyName ((a_map.lookup k).getD k))).length := by
      show (locSelectCols b.cols _).length = _
      rw [hselB, List.length_map, List.length_map]
    have hscA : set_columns (locSelect a (sk.map (fun k => (a_map.lookup k).getD k)))
        (sk.map (fun k => prettyName ((a_map.lookup k).getD k))) =
        Except.ok { locSelect a (sk.map (fun k => (a_map.lookup k).getD k)) with
          cols := sk.map (fun k => prettyName ((a_map.lookup k).getD k)) } := by
      simp only [set_columns]
      rw [if_pos hlenA]
    have hscB : set_columns (locSelect b (sk.map (fun k => (b_map.lookup k).getD k)))
        (sk.map (fun k => prettyName ((a_map.lookup k).getD k))) =
        Except.ok { locSelect b (sk.map (fun k => (b_map.lookup k).getD k)) with
          cols := sk.map (fun k => prettyName ((a_map.lookup k).getD k)) } := by
      simp only [set_columns]
      rw [if_pos hlenB]
    rw [hscA, hscB]
    refine ⟨rfl, ?_, ?_, ?_⟩
    · show sk.map _ ≠ []
      rw [hout]
      intro hnil
      rw [hnil] at hE
      simp at hE
    · show List.Sorted _ (sk.map _)
      rw [hout, hsk]
      exact List.sorted_insertionSort _ shared
    · intro c hc
      rw [show ({ locSelect a (sk.map (fun k => (a_map.lookup k).getD k)) with
          cols := sk.map (fun k => prettyName ((a_map.lookup k).getD k)) } : Table).cols =
        sk.map (fun k => prettyName ((a_map.lookup k).getD k)) from rfl, hout] at hc
      rcases hskmem c hc with ⟨c0, _, hmem0, hsnake0, _⟩
      rcases hskmemb c hc with ⟨cb0, _, hmemb0, hsnakeb0⟩
      refine ⟨?_, ⟨c0, hmem0, hsnake0⟩, ⟨cb0, hmemb0, hsnakeb0⟩⟩
      rw [← hsnake0, snake_normalise_idem]

theorem intersect_and_align_spec_witness :
    (match intersect_and_align (Table.mk ["Country Name", "Year"] [])
        (Table.mk ["country_name", "ladder_score", "year"] []) with
    | Except.error e =>
        e = AlignFailure.alignment
          { msg := "No shared columns found between the two DataFrames after normalisation" } ∧
        ∀ ca ∈ (Table.mk ["Country Name", "Year"] []).cols,
          ∀ cb ∈ (Table.mk ["country_name", "ladder_score", "year"] []).cols,
            snake_normalise ca ≠ snake_normalise cb
    | Except.ok (a2, b2) =>
        a2.cols = b2.cols ∧ a2.cols ≠ [] ∧ List.Sorted (fun x y => x ≤ y) a2.cols ∧
        ∀ c ∈ a2.cols, snake_normalise c = c ∧
          (∃ ca ∈ (Table.mk ["Country Name", "Year"] []).cols,
            snake_normalise ca = c) ∧
          (∃ cb ∈ (Table.mk ["country_name", "ladder_score", "year"] []).cols,
            snake_normalise cb = c)) :=
  intersect_and_align_spec (Table.mk ["Country Name", "Year"] [])
    (Table.mk ["country_name", "ladder_score", "year"] [])
    (by decide) (by decide)

theorem intersect_and_align_counterexample :
    snake_normalise "ladder_score" = snake_normalise "ladder_score" ∧
    "ladder_score" ∈ (Table.mk ["ladder_score", "ladder_score"] []).cols ∧
    "ladder_score" ∈ (Table.mk ["ladder_score"] []).cols ∧
    intersect_and_align (Table.mk ["ladder_score", "ladder_score"] [])
        (Table.mk ["ladder_score"] []) =
      Except.error (AlignFailure.lengthMismatch 2 1) := by
  exact ⟨rfl, by decide, by decide, rfl⟩

/-! ## Lemmas: the Precedence Appender -/

theorem orderedInsert_filter_pos {β : Type} (r : β → β → Prop) [DecidableRel r]
    (p : β → Bool) (x : β) (hx : p x = true) :
    ∀ (s : List β), (∀ b ∈ s, p b = true → r x b) →
      (List.orderedInsert r x s).filter p = x :: s.filter p
  | [] => by simp [List.orderedInsert, hx]
  | b :: bs => by
    intro hs
    rw [List.orderedInsert]
    by_cases hrb : r x b
    · rw [if_pos hrb, List.filter_cons, if_pos hx]
    · have hpb : p b = false := by
        cases hpb : p b
        · rfl
        · exact absurd (hs b (List.mem_cons_self b bs) hpb) hrb
      rw [if_neg hrb, List.filter_cons, if_neg (by simp [hpb]),
        List.filter_cons, if_neg (by simp [hpb]),
        orderedInsert_filter_pos r p x hx bs
          (fun b' hb' => hs b' (List.mem_cons_of_mem b hb'))]

theorem orderedInsert_filter_neg {β : Type} (r : β → β → Prop) [DecidableRel r]
    (p : β → Bool) (x : β) (hx : p x = false) :
    ∀ (s : List β), (List.orderedInsert r x s).filter p = s.filter p
  | [] => by simp [List.orderedInsert, hx]
  | b :: bs => by
    rw [List.orderedInsert]
    by_cases hrb : r x b
    · rw [if_pos hrb, List.filter_cons, if_neg (by simp [hx])]
    · rw [if_neg hrb, List.filter_cons, List.filter_cons,
        orderedInsert_filter_neg r p x hx bs]

theorem insertionSort_filter_of_agree {β : Type} (r : β → β → Prop)
    [DecidableRel r] (p : β → Bool) :
    ∀ (l : List β), (∀ a ∈ l, ∀ b ∈ l, p a = true → p b = true → r a b) →
      (List.insertionSort r l).filter p = l.filter p
  | [] => fun _ => rfl
  | x :: xs => fun H => by
    rw [List.insertionSort]
    have H2 : ∀ a ∈ xs, ∀ b ∈ xs, p a = true → p b = true → r a b :=
      fun a ha b hb pa pb =>
        H a (List.mem_cons_of_mem x ha) b (List.mem_cons_of_mem x hb) pa pb
    cases hx : p x with
    | true =>
      rw [orderedInsert_filter_pos r p x hx _ ?hs,
        insertionSort_filter_of_agree r p xs H2, List.filter_cons, if_pos hx]
      case hs =>
        intro b hb hpb
        have hbxs : b ∈ xs := (List.mem_insertionSort r).mp hb
        exact H x (List.mem_cons_self x xs) b (List.mem_cons_of_mem x hbxs) hx hpb
    | false =>
      rw [orderedInsert_filter_neg r p x hx,
        insertionSort_filter_of_agree r p xs H2, List.filter_cons,
        if_neg (by simp [hx])]

theorem getLast?_cons_of_ne_nil {β : Type} (x : β) (l : List β) (h : l ≠ []) :
    (x :: l).getLast? = l.getLast? := by
  cases l with
  | nil => exact absurd rfl h
  | cons y t => rfl

theorem dropDupKeepLast_filter {β κ : Type} [DecidableEq κ] (f : β → κ) (k : κ) :
    ∀ (l : List β),
      (dropDupKeepLast f l).filter (fun x => decide (f x = k)) =
        ((l.filter (fun x => decide (f x = k))).getLast?).toList
  | [] => rfl
  | x :: xs => by
    rw [dropDupKeepLast]
    cases hany : xs.any (fun y => decide (f y = f x)) with
    | true =>
      rw [if_pos rfl]
      by_cases hfx : f x = k
      · have hex : ∃ y ∈ xs, f y = f x := by simpa using hany
        rcases hex with ⟨y, hy, hyx⟩
        have hyf : y ∈ xs.filter (fun x => decide (f x = k)) :=
          List.mem_filter.mpr ⟨hy, by simp [hyx, hfx]⟩
        have hne : xs.filter (fun x => decide (f x = k)) ≠ [] :=
          fun hnil => by rw [hnil] at hyf; simp at hyf
        rw [dropDupKeepLast_filter f k xs, List.filter_cons, if_pos (by simp [hfx]),
          getLast?_cons_of_ne_nil x _ hne]
      · rw [dropDupKeepLast_filter f k xs, List.filter_cons,
          if_neg (by simp [hfx])]
    | false =>
      rw [if_neg (by simp)]
      by_cases hfx : f x = k
      · have hnone : ∀ y ∈ xs, (decide (f y = k)) = false := by
          intro y hy
          have : ¬ f y = f x := by
            have := List.any_eq_false.mp hany y hy
            simpa using this
          simp [hfx ▸ this]
        have hfilxs : xs.filter (fun x => decide (f x = k)) = [] :=
          List.filter_eq_nil_iff.mpr (fun y hy => by simp [hnone y hy])
        rw [List.filter_cons, if_pos (by simp [hfx]),
          dropDupKeepLast_filter f k xs, hfilxs,
          List.filter_cons, if_pos (by simp [hfx]), hfilxs]
        rfl
      · rw [List.filter_cons, if_neg (by simp [hfx]),
          dropDupKeepLast_filter f k xs,
          List.filter_cons, if_neg (by simp [hfx])]

theorem append_with_precedence_filter {α : Type} (m y : List (Row α))
    (k : String × Int) :
    (append_with_precedence m y).filter (fun r => decide (rowKey r = k)) =
      (((m ++ y).filter (fun r => decide (rowKey r = k))).getLast?).toList := by
  simp only [append_with_precedence]
  set U := m ++ y with hU
  set K := y2021_keys y with hK
  set F := U.map (flag_2021 K) with hF
  set S := List.insertionSort append_sort_le F with hS
  rw [List.filter_map]
  have hcomp :
      ((fun r => decide (rowKey r = k)) ∘ (Prod.fst : Row α × Nat → Row α)) =
        (fun x : Row α × Nat => decide (rowKey x.1 = k)) := rfl
  rw [hcomp, dropDupKeepLast_filter (fun p : Row α × Nat => rowKey p.1) k S]
  have hagree : ∀ a ∈ F, ∀ b ∈ F,
      (fun x : Row α × Nat => decide (rowKey x.1 = k)) a = true →
      (fun x : Row α × Nat => decide (rowKey x.1 = k)) b = true →
      append_sort_le a b := by
    intro a ha b hb hpa hpb
    rcases List.mem_map.mp ha with ⟨ra, _, rfl⟩
    rcases List.mem_map.mp hb with ⟨rb, _, rfl⟩
    have hka : rowKey ra = k := by simpa [flag_2021] using hpa
    have hkb : rowKey rb = k := by simpa [flag_2021] using hpb
    have hc : ra.country_name = rb.country_name := by
      have := congrArg Prod.fst (hka.trans hkb.symm)
      simpa [rowKey] using this
    have hyr : ra.year = rb.year := by
      have := congrArg Prod.snd (hka.trans hkb.symm)
      simpa [rowKey] using this
    show rowSortLe (flag_2021 K ra) (flag_2021 K rb) = true
    simp only [rowSortLe, flag_2021]
    rw [if_pos (by simp [hc]), if_pos (by simp [hyr])]
    simp only [hka, hkb]
    simp
  have hstep : S.filter (fun x : Row α × Nat => decide (rowKey x.1 = k)) =
      F.filter (fun x : Row α × Nat => decide (rowKey x.1 = k)) :=
    insertionSort_filter_of_agree append_sort_le _ F hagree
  rw [hstep, hF, List.filter_map]
  have hcomp2 :
      ((fun x : Row α × Nat => decide (rowKey x.1 = k)) ∘ flag_2021 K) =
        (fun r : Row α => decide (rowKey r = k)) := rfl
  rw [hcomp2, List.getLast?_map]
  cases hgl : (U.filter (fun r : Row α => decide (rowKey r = k))).getLast? with
  | none => rfl
  | some r => simp [flag_2021]

/-- C3. The Precedence Appender emits exactly one row per `(country_name,
year)` key present in either input, and no row for any other key: no key is
lost and none is duplicated. -/
theorem append_with_precedence_unique_keys {α : Type} (m y : List (Row α))
    (k : String × Int) :
    ((append_with_precedence m y).filter (fun r => decide (rowKey r = k))).length =
      if (m ++ y).any (fun r => decide (rowKey r = k)) then 1 else 0 := by
  rw [append_with_precedence_filter]
  cases hgl : ((m ++ y).filter (fun r => decide (rowKey r = k))).getLast? with
  | none =>
    rw [List.getLast?_eq_none_iff] at hgl
    have hfalse : (m ++ y).any (fun r => decide (rowKey r = k)) = false := by
      rw [List.any_eq_false]
      intro r hr hp
      have hmem : r ∈ (m ++ y).filter (fun r => decide (rowKey r = k)) :=
        List.mem_filter.mpr ⟨hr, hp⟩
      rw [hgl] at hmem
      simp at hmem
    rw [if_neg (by simp [hfalse])]
    rfl
  | some r =>
    have hr : r ∈ (m ++ y).filter (fun r => decide (rowKey r = k)) :=
      List.mem_of_getLast?_eq_some hgl
    have := List.mem_filter.mp hr
    rw [if_pos (List.any_eq_true.mpr ⟨r, this.1, this.2⟩)]
    rfl

/-- C2. The Precedence Appender gives whole-row precedence to the 2021
snapshot: for a key held by exactly one snapshot row and also present in the
panel, the single output row for that key is the snapshot's row. -/
theorem append_with_precedence_snapshot_wins {α : Type} (m y : List (Row α))
    (k : String × Int) (r0 : Row α)
    (hy : y.filter (fun r => decide (rowKey r = k)) = [r0])
    (hm : m.any (fun r => decide (rowKey r = k)) = true) :
    (append_with_precedence m y).filter (fun r => decide (rowKey r = k)) = [r0] := by
  rw [append_with_precedence_filter, List.filter_append, hy, List.getLast?_concat]
  rfl

theorem append_with_precedence_snapshot_wins_witness :
    (append_with_precedence
        [Row.mk "Wonderland" 2021 (5 : Int)]
        [Row.mk "Wonderland" 2021 (7 : Int)]).filter
      (fun r => decide (rowKey r = ("Wonderland", 2021))) =
      [Row.mk "Wonderland" 2021 (7 : Int)] :=
  append_with_precedence_snapshot_wins _ _ _ _ (by decide) (by decide)

/-! ## Lemmas: the Geo Harmonizer & Merger -/

theorem filter_key_length_le_one {β κ : Type} [DecidableEq κ] (f : β → κ) :
    ∀ (l : List β), (l.map f).Nodup → ∀ k : κ,
      (l.filter (fun x => decide (f x = k))).length ≤ 1
  | [] => by simp
  | x :: xs => fun h k => by
    rw [List.map_cons, List.nodup_cons] at h
    obtain ⟨hx, hxs⟩ := h
    rw [List.filter_cons]
    by_cases hfx : f x = k
    · rw [if_pos (by simp [hfx])]
      have hnil : xs.filter (fun x => decide (f x = k)) = [] := by
        apply List.filter_eq_nil_iff.mpr
        intro y hy
        simp only [decide_eq_true_eq]
        intro hyk
        exact hx (List.mem_map.mpr ⟨y, hy, hyk.trans hfx.symm⟩)
      rw [hnil]
      simp
    · rw [if_neg (by simp [hfx])]
      exact filter_key_length_le_one f xs hxs k

theorem flatMap_const_one_length {β γ : Type} (g : β → List γ) :
    ∀ (l : List β), (∀ x ∈ l, (g x).length = 1) → (l.flatMap g).length = l.length
  | [] => fun _ => rfl
  | x :: xs => fun h => by
    rw [List.flatMap_cons, List.length_append, h x (List.mem_cons_self x xs),
      flatMap_const_one_length g xs (fun y hy => h y (List.mem_cons_of_mem x hy)),
      List.length_cons]
    omega

theorem mergeLeft_rows_length (key : String) (l r : Table) (sl sr : String)
    (h : (r.rows.map (fun rrow => cellAt r.cols rrow key)).Nodup) :
    (mergeLeft key l r sl sr).rows.length = l.rows.length := by
  show (l.rows.flatMap _).length = l.rows.length
  apply flatMap_const_one_length
  intro lrow _
  dsimp only
  set ms := r.rows.filter
    (fun rrow => cellAt r.cols rrow key == cellAt l.cols lrow key) with hms
  by_cases hE : ms.isEmpty
  · rw [if_pos hE]
    rfl
  · rw [if_neg hE, List.length_map]
    have hle : ms.length ≤ 1 := by
      rw [hms]
      exact filter_key_length_le_one (fun rrow => cellAt r.cols rrow key) r.rows h
        (cellAt l.cols lrow key)
    have hne : ms ≠ [] := fun h0 => by rw [h0] at hE; simp at hE
    have hge : 0 < ms.length := List.length_pos.mpr hne
    omega

/-- C7 (amended). The geo merge of Step 8 preserves the happiness table's row
count whenever the geolocation table has no duplicate `country_name` value;
with duplicated geo country names the left join emits extra rows (see the
counterexample). -/
theorem geo_merge_row_count (appended geo_df : Table) (geo_country : String)
    (h : ((renameCol geo_df geo_country "country_name").rows.map
        (fun rrow => cellAt (renameCol geo_df geo_country "country_name").cols
          rrow "country_name")).Nodup) :
    (geoMergeStep appended geo_df geo_country).rows.length =
      appended.rows.length :=
  mergeLeft_rows_length "country_name" appended
    (renameCol geo_df geo_country "country_name") "" "_geo" h

theorem geo_merge_row_count_witness :
    (geoMergeStep
        (Table.mk ["country_name", "year"]
          [[Value.str "Albania", Value.int 2020], [Value.str "Benin", Value.int 2020]])
        (Table.mk ["country_name", "latitude", "longitude"]
          [[Value.str "Albania", Value.int 41, Value.int 20]])
        "country_name").rows.length =
      (Table.mk ["country_name", "year"]
        [[Value.str "Albania", Value.int 2020],
         [Value.str "Benin", Value.int 2020]]).rows.length :=
  geo_merge_row_count _ _ _ (by decide)

theorem geo_merge_row_count_counterexample :
    ¬ ((geoMergeStep
        (Table.mk ["country_name", "year"] [[Value.str "Albania", Value.int 2020]])
        (Table.mk ["country_name", "latitude", "longitude"]
          [[Value.str "Albania", Value.int 41, Value.int 20],
           [Value.str "Albania", Value.int 41, Value.int 21]])
        "country_name").rows.length =
      (Table.mk ["country_name", "year"]
        [[Value.str "Albania", Value.int 2020]]).rows.length) := by
  decide

/-! ## Lemmas: the Region Injector -/

/-- C8 (amended). When the panel's located country column is NOT literally
named `country_name`, a pre-existing `regional_indicator` column is dropped
before the country-region join, and the joined output carries exactly one
`regional_indicator` column. (When the country column IS named
`country_name`, the code keeps the old column and the join emits suffixed
duplicates instead; see the counterexample.) -/
theorem regionInject_single_region_col (multi_work y2021_work : Table)
    (multi_country y21_country y21_region : String)
    (hreg : multi_work.cols.contains "regional_indicator" = true)
    (hcn : multi_country ≠ "country_name")
    (hyy : y21_country ≠ y21_region)
    (hmc : multi_country ≠ "regional_indicator") :
    (regionInject multi_work y2021_work
        multi_country y21_country y21_region).cols.count "regional_indicator" = 1 := by
  have hreg2 : "regional_indicator" ∈ multi_work.cols := by simpa using hreg
  simp only [regionInject, selectCols]
  rw [if_pos (by simp [hreg2, hcn])]
  have hCR : ([y21_country, y21_region].map (fun c =>
      if c == y21_country then multi_country
      else if c == y21_region then "regional_indicator" else c)) =
      [multi_country, "regional_indicator"] := by
    simp only [List.map_cons, List.map_nil]
    rw [if_pos (by simp), if_neg (by simp [Ne.symm hyy]), if_pos (by simp)]
  show (mergeLeft multi_country (dropCol multi_work "regional_indicator")
      (Table.mk _ _) "_x" "_y").cols.count "regional_indicator" = 1
  simp only [mergeLeft, dropCol]
  rw [hCR, List.count_append]
  have hleft : (((multi_work.cols.filter (fun x => x != "regional_indicator")).map
      (fun c => if c != multi_country &&
          ([multi_country, "regional_indicator"] : List String).contains c
        then c ++ "_x" else c)).count "regional_indicator") = 0 := by
    rw [List.count_eq_zero]
    intro hmem
    rcases List.mem_map.mp hmem with ⟨c, hc, hfc⟩
    have hcne : c ≠ "regional_indicator" := by
      have := (List.mem_filter.mp hc).2
      simpa using this
    by_cases hcond : (c != multi_country &&
        ([multi_country, "regional_indicator"] : List String).contains c) = true
    · have h1 : c ≠ multi_country := by
        have := (Bool.and_eq_true _ _).mp hcond
        simpa using this.1
      have h2 : c ∈ ([multi_country, "regional_indicator"] : List String) := by
        have := (Bool.and_eq_true _ _).mp hcond
        have h3 := this.2
        simpa using h3
      rcases List.mem_cons.mp h2 with rfl | h4
      · exact h1 rfl
      · rcases List.mem_cons.mp h4 with rfl | h5
        · exact hcne rfl
        · simp at h5
    · rw [if_neg hcond] at hfc
      exact hcne hfc
  have hright : ((([multi_country, "regional_indicator"] : List String).filter
      (fun c => c != multi_country)).map
        (fun c => if (multi_work.cols.filter
            (fun x => x != "regional_indicator")).contains c
          then c ++ "_y" else c)).count "regional_indicator" = 1 := by
    have hfil : (([multi_country, "regional_indicator"] : List String).filter
        (fun c => c != multi_country)) = ["regional_indicator"] := by
      rw [List.filter_cons, if_neg (by simp), List.filter_cons,
        if_pos (by simp [Ne.symm hmc]), List.filter_nil]
    rw [hfil]
    have hnc : ((multi_work.cols.filter (fun x => x != "regional_indicator")).contains
        "regional_indicator") = false := by
      cases hc2 : ((multi_work.cols.filter (fun x => x != "regional_indicator")).contains
        "regional_indicator") with
      | false => rfl
      | true =>
        exfalso
        have hmem : "regional_indicator" ∈
            multi_work.cols.filter (fun x => x != "regional_indicator") := by
          simpa using hc2
        have := (List.mem_filter.mp hmem).2
        simp at this
    simp only [List.map_cons, List.map_nil, hnc]
    rw [if_neg (by simp)]
    simp
  rw [hleft, hright]

theorem regionInject_single_region_col_witness :
    (regionInject
        (Table.mk ["Country Name", "year", "regional_indicator"]
          [[Value.str "X", Value.int 2019, Value.str "R"]])
        (Table.mk ["Country Name", "Regional Indicator"]
          [[Value.str "X", Value.str "R2"]])
        "Country Name" "Country Name" "Regional Indicator").cols.count
      "regional_indicator" = 1 :=
  regionInject_single_region_col _ _ _ _ _
    (by decide) (by decide) (by decide) (by decide)

theorem regionInject_single_region_col_counterexample :
    (regionInject
        (Table.mk ["country_name", "year", "regional_indicator"]
          [[Value.str "X", Value.int 2019, Value.str "R"]])
        (Table.mk ["country_name", "regional_indicator"]
          [[Value.str "X", Value.str "R2"]])
        "country_name" "country_name" "regional_indicator").cols =
      ["country_name", "year", "regional_indicator_x", "regional_indicator_y"] ∧
    (regionInject
        (Table.mk ["country_name", "year", "regional_indicator"]
          [[Value.str "X", Value.int 2019, Value.str "R"]])
        (Table.mk ["country_name", "regional_indicator"]
          [[Value.str "X", Value.str "R2"]])
        "country_name" "country_name" "regional_indicator").cols.count
      "regional_indicator" = 0 := by
  exact ⟨by decide, by decide⟩

/-! ## The Alias Resolver, the skipped geo harmonisation, and the save step -/

/-- C10. The Alias Resolver preserves the column count of every table, but
not column-name uniqueness: a table holding both a `Life Ladder` column
(normalised key `life_ladder`, an alias source) and a distinct `ladder_score`
column comes out with two columns both named `ladder_score`. -/
theorem apply_aliases_count_and_duplicate :
    (∀ (df : Table) (aliases : List (String × String)),
      (apply_aliases df aliases).cols.length = df.cols.length) ∧
    ((apply_aliases (Table.mk ["Life Ladder", "ladder_score"] []) ALIASES).cols =
      ["ladder_score", "ladder_score"] ∧
    ¬ (apply_aliases (Table.mk ["Life Ladder", "ladder_score"] []) ALIASES).cols.Nodup) := by
  refine ⟨fun df aliases => ?_, by decide, by decide⟩
  simp [apply_aliases]

/-- C1 (the code at the failing input). Step 8 merges `geo_renamed`, built
from the raw `geo_df`, not the harmonised `geo_harmonised` of Step 7: a
happiness row `Congo (Brazzaville)` facing a geo row `Congo [Republic]` gets
null coordinates from the code's merge, while a merge against the Step 7
`geoHarmonised` table would have populated them. -/
theorem geo_merge_skips_harmonisation :
    (geoMergeStep
        (Table.mk ["country_name", "year", "ladder_score"]
          [[Value.str "Congo (Brazzaville)", Value.int 2021, Value.int 5]])
        (Table.mk ["country_name", "latitude", "longitude"]
          [[Value.str "Congo [Republic]", Value.int 4, Value.int 15]])
        "country_name").rows =
      [[Value.str "Congo (Brazzaville)", Value.int 2021, Value.int 5,
        Value.null, Value.null]] ∧
    (mergeLeft "country_name"
        (Table.mk ["country_name", "year", "ladder_score"]
          [[Value.str "Congo (Brazzaville)", Value.int 2021, Value.int 5]])
        (geoHarmonised
          (Table.mk ["country_name", "latitude", "longitude"]
            [[Value.str "Congo [Republic]", Value.int 4, Value.int 15]])
          "country_name") "" "_geo").rows =
      [[Value.str "Congo (Brazzaville)", Value.int 2021, Value.int 5,
        Value.int 4, Value.int 15]] := by
  exact ⟨by decide, by decide⟩

/-- C4 counterexample. Even when called with `save_output = false`, Step 9 of
the engine performs filesystem effects (creates the gold directory and writes
the CSV): persisting is not left to an external collaborator. -/
theorem saveToGold_writes_counterexample :
    (saveToGold "data/gold" "world_happiness_gold.csv"
        (Table.mk ["country_name"] []) false).2 =
      [FsEffect.mkdirParents "data/gold",
       FsEffect.writeCsv "data/gold/world_happiness_gold.csv"] ∧
    (saveToGold "data/gold" "world_happiness_gold.csv"
        (Table.mk ["country_name"] []) false).2 ≠ [] := by
  exact ⟨rfl, by decide⟩

/-- C4 (amended). The engine performs no reads, but on every call -- whatever
the value of the never-consulted `save_output` parameter -- Step 9 creates
the gold directory and writes `gold_folder/engineered_name`; the merged table
is also returned unchanged. -/
theorem saveToGold_always_writes (gold_folder engineered_name : String)
    (merged : Table) (save_output : Bool) :
    (saveToGold gold_folder engineered_name merged save_output).1 = merged ∧
    (saveToGold gold_folder engineered_name merged save_output).2 =
      [FsEffect.mkdirParents gold_folder,
       FsEffect.writeCsv (gold_folder ++ "/" ++ engineered_name)] ∧
    (saveToGold gold_folder engineered_name merged save_output).2 ≠ [] := by
  refine ⟨rfl, rfl, ?_⟩
  intro h
  simp [saveToGold] at h
